import Mathlib

/-!
A shallow embedding of `src/swap_drift_tracker.py`: the rate parser
(regex match, bank lookup, float conversion), the differential
classifier over the fixed pair catalog, the qualitative carry analysis
and the strategic watchlist.  Python machine floats are modelled by
exact rationals; `round(x, 3)` is modelled by decimal rounding with
ties to even (the tie rule of Python's `round`).
-/

/-- Python ASCII whitespace, as matched by `\s`, `str.strip` and friends. -/
def isPySpace (c : Char) : Bool :=
  c = ' ' || c = '\t' || c = '\n' || c = '\r' || c = '\x0b' || c = '\x0c'

/-- A character matched by the regex class `[\d.]`. -/
def isNumChar (c : Char) : Bool := c.isDigit || c = '.'

/-- Line terminators recognised by `str.splitlines` (besides `\r\n`). -/
def isLineTerm (c : Char) : Bool :=
  c = '\n' || c = '\r' || c = '\x0b' || c = '\x0c' || c = '\x1c' ||
  c = '\x1d' || c = '\x1e' || c = '\x85' || c = '\u2028' || c = '\u2029'

/-- Worker for `str.splitlines`: split at line terminators, treating
`\r\n` as a single terminator; a trailing terminator does not produce a
final empty line. -/
def splitLinesAux : List Char → List Char → List (List Char)
  | acc, [] => if acc.isEmpty then [] else [acc.reverse]
  | acc, '\r' :: '\n' :: rest => acc.reverse :: splitLinesAux [] rest
  | acc, c :: rest =>
    if isLineTerm c then acc.reverse :: splitLinesAux [] rest
    else splitLinesAux (c :: acc) rest

/-- `raw_input.splitlines()`. -/
def splitlines (s : String) : List (List Char) := splitLinesAux [] s.data

/-- `str.strip()` on a character list. -/
def stripChars (l : List Char) : List Char :=
  ((l.dropWhile isPySpace).reverse.dropWhile isPySpace).reverse

/-- The `bank_to_currency` catalog. -/
def bank_to_currency (b : String) : Option String :=
  if b = "Federal Reserve" then some "USD"
  else if b = "European Central Bank" then some "EUR"
  else if b = "Bank of England" then some "GBP"
  else if b = "Reserve Bank of Australia" then some "AUD"
  else if b = "Reserve Bank of New Zealand" then some "NZD"
  else if b = "Bank of Japan" then some "JPY"
  else if b = "Bank of Canada" then some "CAD"
  else if b = "Swiss National Bank" then some "CHF"
  else none

/-- The fixed catalog `VALID_PAIRS`. -/
def VALID_PAIRS : List String :=
  ["EUR/USD", "GBP/USD", "USD/JPY", "USD/CHF", "AUD/USD", "USD/CAD", "NZD/USD",
   "EUR/GBP", "EUR/JPY", "EUR/CHF", "EUR/AUD", "EUR/CAD", "EUR/NZD",
   "GBP/JPY", "GBP/CHF", "GBP/AUD", "GBP/CAD", "GBP/NZD",
   "AUD/JPY", "CAD/JPY", "CHF/JPY", "NZD/JPY",
   "AUD/CAD", "AUD/CHF", "AUD/NZD",
   "CAD/CHF", "NZD/CAD", "NZD/CHF"]

/-- Does a character list start with a `[\d.]` character? -/
def isNumHead : List Char → Bool
  | [] => false
  | d :: _ => isNumChar d

/-- Backtracking semantics of `re.match(r"(.+?)\s+([\d.]+)\s*%?", line)`:
the lazy group `(.+?)` takes the shortest nonempty prefix (never crossing
a newline, which `.` cannot match) that is followed by whitespace and
then a `[\d.]` character; the groups returned are that prefix and the
maximal `[\d.]` run after the whitespace (`\s*%?` always matches and
binds no group).  `acc` holds the reversed prefix scanned so far. -/
def scan : List Char → List Char → Option (List Char × List Char)
  | _, [] => none
  | acc, c :: rest =>
    if isPySpace c && !acc.isEmpty && isNumHead (rest.dropWhile isPySpace) then
      some (acc.reverse, (rest.dropWhile isPySpace).takeWhile isNumChar)
    else if c = '\n' then none
    else scan (c :: acc) rest

/-- Value of a digit string, most significant digit first. -/
def digitsVal (l : List Char) : ℕ :=
  l.foldl (fun a c => 10 * a + (c.toNat - 48)) 0

/-- Python `float` applied to a token drawn from `[\d.]+`: defined exactly
when the token has at least one digit and at most one dot; on any other
such token (`"."`, `"1.2.3"`, …) `float` raises `ValueError`. -/
def floatOfTok (tok : List Char) : Option ℚ :=
  if tok.any Char.isDigit ∧ tok.countP (fun c => c == '.') ≤ 1 then
    some ((digitsVal (tok.takeWhile (fun c => c != '.')) : ℚ) +
      (digitsVal ((tok.dropWhile (fun c => c != '.')).drop 1) : ℚ) /
        (10 : ℚ) ^ ((tok.dropWhile (fun c => c != '.')).drop 1).length)
  else none

/-- Outcome of one iteration of the parsing loop on one line. -/
inductive LineResult where
  | entry (currency : String) (rate : ℚ)
  | skip
  | err
deriving DecidableEq, Repr

/-- One iteration of the parsing loop: regex match, bank lookup on the
stripped label, then `float` conversion of the rate token. -/
def parseLine (line : List Char) : LineResult :=
  match scan [] line with
  | none => .skip
  | some (bank, tok) =>
    match bank_to_currency (String.mk (stripChars bank)) with
    | none => .skip
    | some currency =>
      match floatOfTok tok with
      | some r => .entry currency r
      | none => .err

/-- The whole parsing loop building `rate_data`; an unhandled
`ValueError` from `float` aborts the entire run. -/
def parseAll : List (List Char) → Except Unit (List (String × ℚ))
  | [] => .ok []
  | l :: rest =>
    match parseLine l with
    | .err => .error ()
    | .skip => parseAll rest
    | .entry c r => (parseAll rest).map (fun d => (c, r) :: d)

/-- Python `dict` insertion: overwrite the value at an existing key,
otherwise append the binding at the end. -/
def dictUpd : List (String × ℚ) → String → ℚ → List (String × ℚ)
  | [], k, v => [(k, v)]
  | (k', v') :: m, k, v =>
    if k' = k then (k', v) :: m else (k', v') :: dictUpd m k v

/-- `rates_dict = dict(rate_data)`. -/
def dictOf (l : List (String × ℚ)) : List (String × ℚ) :=
  l.foldl (fun m kv => dictUpd m kv.1 kv.2) []

/-- Dictionary membership test / lookup. -/
def dictGet (m : List (String × ℚ)) (k : String) : Option ℚ :=
  (m.find? (fun kv => kv.1 == k)).map (·.2)

/-- Rounding to the nearest integer with ties to even, the tie rule of
Python's `round`. -/
def rhe (x : ℚ) : ℤ :=
  if Int.fract x < 1 / 2 then ⌊x⌋
  else if 1 / 2 < Int.fract x then ⌊x⌋ + 1
  else if ⌊x⌋ % 2 = 0 then ⌊x⌋ else ⌊x⌋ + 1

/-- `round(x, 3)`. -/
def round3 (x : ℚ) : ℚ := (rhe (1000 * x) : ℚ) / 1000

/-- The five-field dictionaries returned by `analyze_carry_implications`. -/
structure CarryAnalysis where
  trendBias : String
  riskLevel : String
  marketBehavior : String
  warning : String
  tradingContext : String
deriving DecidableEq, Repr

/-- Bundle for a large positive differential. -/
def largeDiffPositive : CarryAnalysis :=
  { trendBias := "Strongly Bullish in Risk-On"
    riskLevel := "High"
    marketBehavior := "Trends persistently, shallow pullbacks"
    warning := "Violent reversal risk during risk-off events"
    tradingContext := "Classic carry trade - monitor VIX and risk sentiment" }

/-- Bundle for a large negative differential. -/
def largeDiffNegative : CarryAnalysis :=
  { trendBias := "Bearish in Risk-On / Bullish in Risk-Off"
    riskLevel := "High"
    marketBehavior := "Often weak in stable markets, spikes in crises"
    warning := "Funding currency - can rally sharply during risk-off"
    tradingContext := "Safe haven flows dominate during stress" }

/-- Bundle for a moderate positive differential. -/
def moderateDiffPositive : CarryAnalysis :=
  { trendBias := "Mildly Bullish"
    riskLevel := "Medium"
    marketBehavior := "Moderate trending, sentiment-dependent"
    warning := "Moderate reversal risk"
    tradingContext := "Watch overall risk appetite and central bank guidance" }

/-- Bundle for a moderate negative differential. -/
def moderateDiffNegative : CarryAnalysis :=
  { trendBias := "Mixed"
    riskLevel := "Medium"
    marketBehavior := "Range-bound with directional spikes"
    warning := "Carry costs accumulate over time"
    tradingContext := "Driven by technicals and other fundamentals" }

/-- Bundle for a small differential. -/
def smallDiff : CarryAnalysis :=
  { trendBias := "Neutral"
    riskLevel := "Low"
    marketBehavior := "Driven by other fundamentals"
    warning := "Low carry influence"
    tradingContext := "Technical analysis and other macro factors dominate" }

/-- `analyze_carry_implications(rate_differential, pair)`. -/
def analyze_carry_implications (rate_differential : ℚ) (pair : String) :
    CarryAnalysis :=
  if |rate_differential| > 2 then
    if rate_differential > 0 then largeDiffPositive else largeDiffNegative
  else if |rate_differential| > 1 / 2 then
    if rate_differential > 0 then moderateDiffPositive else moderateDiffNegative
  else smallDiff

/-- `base, quote = pair.split('/')` for a catalog pair
(every catalog entry contains exactly one slash). -/
def splitSlash (pair : String) : String × String :=
  (String.mk (pair.data.takeWhile (fun c => c != '/')),
   String.mk ((pair.data.dropWhile (fun c => c != '/')).drop 1))

/-- One row of `results_long` / `results_short`. -/
structure PairRecord where
  currencyPair : String
  position : String
  rateDiff : ℚ
  carry : String
  baseRate : ℚ
  quoteRate : ℚ
  description : String
  trendBias : String
  riskLevel : String
  marketBehavior : String
deriving DecidableEq, Repr

/-- The long-position record appended by the classifier loop. -/
def longRecord (pair : String) (rate_base rate_quote : ℚ) : PairRecord :=
  { currencyPair := pair
    position := "Long"
    rateDiff := round3 (rate_base - rate_quote)
    carry := if rate_base - rate_quote > 0 then "Earn" else "Pay"
    baseRate := rate_base
    quoteRate := rate_quote
    description := "Buy " ++ (splitSlash pair).1 ++ ", Sell " ++ (splitSlash pair).2
    trendBias := (analyze_carry_implications (rate_base - rate_quote) pair).trendBias
    riskLevel := (analyze_carry_implications (rate_base - rate_quote) pair).riskLevel
    marketBehavior := (analyze_carry_implications (rate_base - rate_quote) pair).marketBehavior }

/-- The short-position record appended by the classifier loop: reversed
sign, opposite carry, analysis of the negated differential. -/
def shortRecord (pair : String) (rate_base rate_quote : ℚ) : PairRecord :=
  { currencyPair := pair
    position := "Short"
    rateDiff := round3 (-(rate_base - rate_quote))
    carry := if rate_base - rate_quote < 0 then "Earn" else "Pay"
    baseRate := rate_base
    quoteRate := rate_quote
    description := "Sell " ++ (splitSlash pair).1 ++ ", Buy " ++ (splitSlash pair).2
    trendBias := (analyze_carry_implications (-(rate_base - rate_quote)) pair).trendBias
    riskLevel := (analyze_carry_implications (-(rate_base - rate_quote)) pair).riskLevel
    marketBehavior := (analyze_carry_implications (-(rate_base - rate_quote)) pair).marketBehavior }

/-- Body of the classifier loop for one catalog pair: `none` when a leg
is missing from `rates_dict` or the differential is under the floor,
otherwise the long and the short record. -/
def processPair (rates_dict : List (String × ℚ)) (min_differential : ℚ)
    (pair : String) : Option (PairRecord × PairRecord) :=
  match dictGet rates_dict (splitSlash pair).1,
        dictGet rates_dict (splitSlash pair).2 with
  | some rate_base, some rate_quote =>
    if |rate_base - rate_quote| ≥ min_differential then
      some (longRecord pair rate_base rate_quote, shortRecord pair rate_base rate_quote)
    else none
  | _, _ => none

/-- The `results_long` list. -/
def results_long (rates_dict : List (String × ℚ)) (min_differential : ℚ) :
    List PairRecord :=
  VALID_PAIRS.filterMap fun p =>
    (processPair rates_dict min_differential p).map Prod.fst

/-- The `results_short` list. -/
def results_short (rates_dict : List (String × ℚ)) (min_differential : ℚ) :
    List PairRecord :=
  VALID_PAIRS.filterMap fun p =>
    (processPair rates_dict min_differential p).map Prod.snd

/-- Outcome of pressing Analyse: the two blocking error messages, the
unhandled `ValueError` crash, or the two record tables. -/
inductive AnalysisResult where
  | emptyInput
  | noValidData
  | parseError
  | ok (resultsLong resultsShort : List PairRecord)
deriving DecidableEq, Repr

/-- The whole analysis pass: empty-input check, parsing loop,
no-valid-data check, then the classifier over the pair catalog. -/
def analyze (raw_input : String) (min_differential : ℚ) : AnalysisResult :=
  if (stripChars raw_input.data).isEmpty then .emptyInput
  else
    match parseAll (splitlines raw_input) with
    | .error _ => .parseError
    | .ok [] => .noValidData
    | .ok rate_data =>
      .ok (results_long (dictOf rate_data) min_differential)
        (results_short (dictOf rate_data) min_differential)

/-- Watchlist categories of `create_strategic_watchlist`. -/
inductive WatchCat where
  | primary
  | secondary
  | riskOff
  | neutral
deriving DecidableEq, Repr

/-- One watchlist row. -/
structure WatchEntry where
  pair : String
  diff : ℚ
  direction : String
  rationale : String
  entry_strategy : String
deriving DecidableEq, Repr

/-- Body of the watchlist loop for one catalog pair. -/
def watchEntry (rates_dict : List (String × ℚ)) (pair : String) :
    Option (WatchCat × WatchEntry) :=
  match dictGet rates_dict (splitSlash pair).1,
        dictGet rates_dict (splitSlash pair).2 with
  | some rb, some rq =>
    if rb - rq > 2 then
      some (.primary,
        { pair := pair, diff := rb - rq, direction := "LONG"
          rationale := "High yield, strong trend potential"
          entry_strategy := "Buy pullbacks to daily support during risk-on" })
    else if rb - rq > 1 / 2 then
      some (.secondary,
        { pair := pair, diff := rb - rq, direction := "LONG"
          rationale := "Moderate yield, good risk-reward"
          entry_strategy := "Buy technical breakouts with risk-on confirmation" })
    else if rb - rq < -1 then
      some (.riskOff,
        { pair := pair, diff := rb - rq
          direction := if rb - rq > 0 then "SHORT" else "LONG"
          rationale := "Safe haven, buy during stress"
          entry_strategy := "Buy during VIX spikes and risk-off events" })
    else
      some (.neutral,
        { pair := pair, diff := rb - rq, direction := "NEUTRAL"
          rationale := "Carry neutral, trade technically"
          entry_strategy := "Pure technical analysis, range trading" })
  | _, _ => none

/-- Stable insertion (descending by `|diff|`) used to model Python's
stable `sort(key=lambda x: abs(x['diff']), reverse=True)`. -/
def insertDesc (x : WatchEntry) : List WatchEntry → List WatchEntry
  | [] => [x]
  | y :: ys => if |y.diff| > |x.diff| then y :: insertDesc x ys else x :: y :: ys

/-- Stable sort, descending by `|diff|`. -/
def sortByAbsDesc (l : List WatchEntry) : List WatchEntry :=
  l.foldr insertDesc []

/-- The four categorized lists of `create_strategic_watchlist`. -/
structure Watchlist where
  primaryCarryTrades : List WatchEntry
  secondaryCarryTrades : List WatchEntry
  riskOffHedges : List WatchEntry
  neutralPairs : List WatchEntry
deriving DecidableEq, Repr

/-- `create_strategic_watchlist(rates_dict)`. -/
def create_strategic_watchlist (rates_dict : List (String × ℚ)) : Watchlist :=
  { primaryCarryTrades := sortByAbsDesc
      ((VALID_PAIRS.filterMap (watchEntry rates_dict)).filterMap
        fun e => if e.1 = WatchCat.primary then some e.2 else none)
    secondaryCarryTrades := sortByAbsDesc
      ((VALID_PAIRS.filterMap (watchEntry rates_dict)).filterMap
        fun e => if e.1 = WatchCat.secondary then some e.2 else none)
    riskOffHedges := sortByAbsDesc
      ((VALID_PAIRS.filterMap (watchEntry rates_dict)).filterMap
        fun e => if e.1 = WatchCat.riskOff then some e.2 else none)
    neutralPairs := sortByAbsDesc
      ((VALID_PAIRS.filterMap (watchEntry rates_dict)).filterMap
        fun e => if e.1 = WatchCat.neutral then some e.2 else none) }

/-! ### Helper lemmas about characters and list scanning -/

theorem space_not_num {c : Char} (h : isPySpace c = true) : isNumChar c = false := by
  simp only [isPySpace, Bool.or_eq_true, decide_eq_true_eq] at h
  rcases h with ((((h | h) | h) | h) | h) | h <;> subst h <;> decide

theorem num_not_space {c : Char} (h : isNumChar c = true) : isPySpace c = false := by
  cases hs : isPySpace c
  · rfl
  · rw [space_not_num hs] at h
    simp at h

theorem head?_dropWhile_prop {α : Type*} {p : α → Bool} {l : List α} {a : α}
    (h : (l.dropWhile p).head? = some a) : a ∈ l ∧ p a = false := by
  induction l with
  | nil => simp [List.dropWhile] at h
  | cons x xs ih =>
    rw [List.dropWhile_cons] at h
    rcases Bool.eq_false_or_eq_true (p x) with hp | hp
    · rw [hp, if_pos rfl] at h
      exact ⟨List.mem_cons_of_mem _ (ih h).1, (ih h).2⟩
    · rw [hp, if_neg Bool.false_ne_true] at h
      rw [List.head?_cons, Option.some.injEq] at h
      subst h
      exact ⟨List.mem_cons_self _ _, hp⟩

theorem getLast?_all {p : Char → Bool} (c : Char) (ls : List Char)
    (hall : ∀ x ∈ ls, p x = true) (hc : p c = true) :
    ∃ d, (c :: ls).getLast? = some d ∧ p d = true := by
  induction ls generalizing c with
  | nil => exact ⟨c, by simp, hc⟩
  | cons x xs ih =>
    rw [List.getLast?_cons_cons]
    exact ih x (fun y hy => hall y (List.mem_cons_of_mem _ hy))
      (hall x (List.mem_cons_self _ _))

theorem dropWhile_append_all {α : Type*} {p : α → Bool} {xs : List α} (ys : List α)
    (h : ∀ x ∈ xs, p x = true) :
    (xs ++ ys).dropWhile p = ys.dropWhile p := by
  induction xs with
  | nil => rfl
  | cons a as ih =>
    rw [List.cons_append, List.dropWhile_cons, if_pos (h a (List.mem_cons_self a as))]
    exact ih (fun x hx => h x (List.mem_cons_of_mem _ hx))

theorem dropWhile_append_not_nil {α : Type*} {p : α → Bool} {xs : List α} (ys : List α)
    (h : xs.dropWhile p ≠ []) :
    (xs ++ ys).dropWhile p = xs.dropWhile p ++ ys := by
  induction xs with
  | nil => simp at h
  | cons a as ih =>
    rcases Bool.eq_false_or_eq_true (p a) with hp | hp
    · rw [List.dropWhile_cons, hp, if_pos rfl] at h
      rw [List.cons_append, List.dropWhile_cons, hp, if_pos rfl,
        List.dropWhile_cons, hp, if_pos rfl]
      exact ih h
    · rw [List.cons_append, List.dropWhile_cons, hp, if_neg Bool.false_ne_true,
        List.dropWhile_cons, hp, if_neg Bool.false_ne_true, List.cons_append]

theorem takeWhile_append_all {α : Type*} {p : α → Bool} {xs : List α} (ys : List α)
    (h : ∀ x ∈ xs, p x = true) :
    (xs ++ ys).takeWhile p = xs ++ ys.takeWhile p := by
  induction xs with
  | nil => rfl
  | cons a as ih =>
    rw [List.cons_append, List.takeWhile_cons, if_pos (h a (List.mem_cons_self a as))]
    rw [ih (fun x hx => h x (List.mem_cons_of_mem _ hx)), List.cons_append]

/-- While the lazy group is still inside a label that contains no
`[\d.]` character, no newline, and does not end in whitespace, the regex
search just accumulates the label, whatever follows it. -/
theorem scan_skip_label (label : List Char)
    (hnum : ∀ c ∈ label, isNumChar c = false)
    (hnl : ∀ c ∈ label, c ≠ '\n')
    (hlast : ∀ c, label.getLast? = some c → isPySpace c = false) :
    ∀ acc tail, scan acc (label ++ tail) = scan (label.reverse ++ acc) tail := by
  induction label with
  | nil => intro acc tail; simp
  | cons c ls ih =>
    intro acc tail
    have hc_nl : c ≠ '\n' := hnl c (List.mem_cons_self _ _)
    have key : scan acc ((c :: ls) ++ tail) = scan (c :: acc) (ls ++ tail) := by
      rcases Bool.eq_false_or_eq_true (isPySpace c) with hws | hws
      · -- inside the label, whitespace is always followed (after more
        -- whitespace) by a non-numeric label character
        have hall : ¬ ∀ x ∈ ls, isPySpace x = true := by
          intro hall
          obtain ⟨d, hd1, hd2⟩ := getLast?_all c ls hall hws
          rw [hlast d hd1] at hd2
          simp at hd2
        have hdw : ls.dropWhile isPySpace ≠ [] := by
          rw [Ne, List.dropWhile_eq_nil_iff]
          exact hall
        obtain ⟨d, ds, hds⟩ : ∃ d ds, ls.dropWhile isPySpace = d :: ds := by
          cases hcase : ls.dropWhile isPySpace with
          | nil => exact absurd hcase hdw
          | cons d ds => exact ⟨d, ds, rfl⟩
        have hd_prop : d ∈ ls ∧ isPySpace d = false :=
          head?_dropWhile_prop (by rw [hds]; rfl)
        have hd_num : isNumChar d = false :=
          hnum d (List.mem_cons_of_mem _ hd_prop.1)
        have hdrop : (ls ++ tail).dropWhile isPySpace = d :: (ds ++ tail) := by
          rw [dropWhile_append_not_nil tail hdw, hds, List.cons_append]
        rw [List.cons_append, scan, hdrop]
        simp only [isNumHead, hd_num, Bool.and_false, Bool.false_eq_true, if_false]
        rw [if_neg hc_nl]
      · rw [List.cons_append, scan, hws]
        simp only [Bool.false_and, Bool.false_eq_true, if_false]
        rw [if_neg hc_nl]
    rw [key, ih (fun x hx => hnum x (List.mem_cons_of_mem _ hx))
      (fun x hx => hnl x (List.mem_cons_of_mem _ hx))
      (fun x hx => by
        cases hls : ls with
        | nil =>
          rw [hls] at hx
          simp at hx
        | cons y ys =>
          apply hlast
          rw [hls] at hx ⊢
          rw [List.getLast?_cons_cons]
          exact hx) (c :: acc) tail]
    simp

/-- When the scanner reaches nonempty whitespace followed by the numeric
token, the regex match fires: it returns the accumulated label and the
maximal `[\d.]` run. -/
theorem scan_fire (acc W N P : List Char)
    (hacc : acc ≠ [])
    (hW : W ≠ []) (hWs : ∀ c ∈ W, isPySpace c = true)
    (hN : N ≠ []) (hNn : ∀ c ∈ N, isNumChar c = true)
    (hP : ∀ d, P.head? = some d → isNumChar d = false) :
    scan acc (W ++ (N ++ P)) = some (acc.reverse, N) := by
  obtain ⟨w, Wt, rfl⟩ : ∃ w Wt, W = w :: Wt := by
    cases W with
    | nil => exact absurd rfl hW
    | cons w Wt => exact ⟨w, Wt, rfl⟩
  obtain ⟨n, Nt, rfl⟩ : ∃ n Nt, N = n :: Nt := by
    cases N with
    | nil => exact absurd rfl hN
    | cons n Nt => exact ⟨n, Nt, rfl⟩
  have hwn : isPySpace w = true := hWs w (List.mem_cons_self _ _)
  have hnn : isNumChar n = true := hNn n (List.mem_cons_self _ _)
  have hnws : isPySpace n = false := num_not_space hnn
  have haccE : acc.isEmpty = false := by
    cases acc with
    | nil => exact absurd rfl hacc
    | cons a as => rfl
  have hdrop : (Wt ++ ((n :: Nt) ++ P)).dropWhile isPySpace = n :: (Nt ++ P) := by
    rw [dropWhile_append_all _ (fun c hc => hWs c (List.mem_cons_of_mem _ hc))]
    rw [List.cons_append, List.dropWhile_cons, hnws]
    simp only [Bool.false_eq_true, if_false]
  have htake : (n :: (Nt ++ P)).takeWhile isNumChar = n :: Nt := by
    rw [← List.cons_append, takeWhile_append_all _ hNn]
    have hPtake : P.takeWhile isNumChar = [] := by
      cases hPc : P with
      | nil => rfl
      | cons p pt =>
        rw [List.takeWhile_cons, if_neg]
        rw [hP p (by rw [hPc]; rfl)]
        simp
    rw [hPtake, List.append_nil]
  rw [List.cons_append, scan, hdrop]
  simp only [hwn, haccE, Bool.not_false, Bool.true_and, Bool.and_true, isNumHead,
    hnn, if_true, htake]

/-! ### Rounding lemmas -/

theorem rhe_intCast (n : ℤ) : rhe (n : ℚ) = n := by
  unfold rhe
  rw [Int.fract_intCast, Int.floor_intCast]
  norm_num

theorem rhe_neg (x : ℚ) : rhe (-x) = - rhe x := by
  rcases eq_or_ne (Int.fract x) 0 with h0 | h0
  · have hx : x = (⌊x⌋ : ℚ) := by
      have h2 : x - ⌊x⌋ = 0 := by rw [Int.self_sub_floor, h0]
      linarith
    rw [hx, ← Int.cast_neg, rhe_intCast, rhe_intCast]
  · have hne : Int.fract (-x) = 1 - Int.fract x := Int.fract_neg h0
    have hf0 : 0 < Int.fract x := lt_of_le_of_ne (Int.fract_nonneg x) (Ne.symm h0)
    have hf1 : Int.fract x < 1 := Int.fract_lt_one x
    have hfl : ⌊-x⌋ = -⌊x⌋ - 1 := by
      have h1 : -x - ⌊-x⌋ = Int.fract (-x) := Int.self_sub_floor (-x)
      have h2 : x - ⌊x⌋ = Int.fract x := Int.self_sub_floor x
      have hcast : ((⌊-x⌋ : ℤ) : ℚ) = ((-⌊x⌋ - 1 : ℤ) : ℚ) := by
        push_cast
        linarith
      exact_mod_cast hcast
    unfold rhe
    rw [hne, hfl]
    rcases lt_trichotomy (Int.fract x) (1 / 2) with h | h | h
    · rw [if_neg (by linarith), if_pos (by linarith), if_pos h]
      ring
    · rw [h]
      have c1 : ¬ ((1 : ℚ) - 1 / 2 < 1 / 2) := by norm_num
      have c2 : ¬ ((1 : ℚ) / 2 < 1 - 1 / 2) := by norm_num
      have c3 : ¬ ((1 : ℚ) / 2 < 1 / 2) := by norm_num
      rw [if_neg c1, if_neg c2, if_neg c3, if_neg c3]
      by_cases hp : ⌊x⌋ % 2 = 0
      · rw [if_pos hp, if_neg (by omega : ¬ ((-⌊x⌋ - 1) % 2 = 0))]
        ring
      · rw [if_neg hp, if_pos (by omega : (-⌊x⌋ - 1) % 2 = 0)]
        ring
    · rw [if_pos (by linarith), if_neg (by linarith), if_pos h]
      ring

theorem round3_neg (x : ℚ) : round3 (-x) = - round3 x := by
  unfold round3
  rw [mul_neg, rhe_neg]
  push_cast
  ring

theorem round3_zero : round3 0 = 0 := by
  unfold round3 rhe
  norm_num

/-! ### Dictionary lemmas -/

theorem dictGet_cons (k : String) (v : ℚ) (M : List (String × ℚ)) (c : String) :
    dictGet ((k, v) :: M) c = if k == c then some v else dictGet M c := by
  unfold dictGet
  cases h : k == c
  · rw [List.find?_cons_of_neg]
    · simp [h]
    · simp [h]
  · rw [List.find?_cons_of_pos]
    · simp [h]
    · simp [h]

theorem dictUpd_get (M : List (String × ℚ)) (k : String) (v : ℚ) (c : String) :
    dictGet (dictUpd M k v) c = if k == c then some v else dictGet M c := by
  induction M with
  | nil =>
    rw [show dictUpd [] k v = [(k, v)] from rfl, dictGet_cons]
  | cons kv M ih =>
    obtain ⟨k', v'⟩ := kv
    by_cases hk : k' = k
    · subst hk
      rw [show dictUpd ((k', v') :: M) k' v = (k', v) :: M from by
        simp [dictUpd]]
      simp only [dictGet_cons]
      cases h : k' == c <;> simp [h]
    · rw [show dictUpd ((k', v') :: M) k v = (k', v') :: dictUpd M k v from by
        simp only [dictUpd]; rw [if_neg hk]]
      simp only [dictGet_cons, ih]
      cases h1 : k' == c <;> cases h2 : k == c
      · simp [h1, h2]
      · simp [h1, h2]
      · simp [h1, h2]
      · exact absurd ((eq_of_beq h1).trans (eq_of_beq h2).symm) hk

theorem countP_key_cons (k' : String) (w : ℚ) (c : String) (L : List (String × ℚ)) :
    L.countP (fun kv => kv.1 == c) + (if k' == c then 1 else 0) =
      ((k', w) :: L).countP (fun kv => kv.1 == c) := by
  rw [List.countP_cons]

theorem dictUpd_countP (M : List (String × ℚ)) (k : String) (v : ℚ) (c : String)
    (hM : M.countP (fun kv => kv.1 == c) ≤ 1) :
    (dictUpd M k v).countP (fun kv => kv.1 == c) =
      if k == c then 1 else M.countP (fun kv => kv.1 == c) := by
  induction M with
  | nil =>
    rw [show dictUpd [] k v = [(k, v)] from rfl]
    cases h : k == c <;> simp [List.countP_cons, h]
  | cons kv M ih =>
    obtain ⟨k', v'⟩ := kv
    rw [← countP_key_cons k' v' c M] at hM
    by_cases hk : k' = k
    · subst hk
      rw [show dictUpd ((k', v') :: M) k' v = (k', v) :: M from by
        simp [dictUpd]]
      rw [← countP_key_cons k' v c M, ← countP_key_cons k' v' c M]
      cases h : k' == c
      · simp [h]
      · simp only [h, if_true] at hM ⊢
        omega
    · rw [show dictUpd ((k', v') :: M) k v = (k', v') :: dictUpd M k v from by
        simp only [dictUpd]; rw [if_neg hk]]
      have hM' : M.countP (fun kv => kv.1 == c) ≤ 1 := by
        cases h : k' == c <;> simp only [h, if_true, Bool.false_eq_true,
          if_false, add_zero] at hM <;> omega
      rw [← countP_key_cons k' v' c (dictUpd M k v), ih hM',
        ← countP_key_cons k' v' c M]
      cases h1 : k' == c <;> cases h2 : k == c
      · simp [h1, h2]
      · simp [h1, h2]
      · simp [h1, h2]
      · exact absurd ((eq_of_beq h1).trans (eq_of_beq h2).symm) hk

theorem dictOf_concat (l : List (String × ℚ)) (kv : String × ℚ) :
    dictOf (l ++ [kv]) = dictUpd (dictOf l) kv.1 kv.2 := by
  unfold dictOf
  rw [List.foldl_append]
  rfl

/-! ### Watchlist membership lemmas -/

theorem mem_insertDesc {x a : WatchEntry} {l : List WatchEntry} :
    a ∈ insertDesc x l ↔ a = x ∨ a ∈ l := by
  induction l with
  | nil => simp [insertDesc]
  | cons y ys ih =>
    unfold insertDesc
    by_cases h : |y.diff| > |x.diff|
    · rw [if_pos h]
      simp only [List.mem_cons, ih]
      tauto
    · rw [if_neg h]
      simp only [List.mem_cons]

theorem mem_sortByAbsDesc {a : WatchEntry} {l : List WatchEntry} :
    a ∈ sortByAbsDesc l ↔ a ∈ l := by
  unfold sortByAbsDesc
  induction l with
  | nil => simp
  | cons y ys ih =>
    rw [List.foldr_cons, mem_insertDesc, ih, List.mem_cons]

/-! ### Classifier loop lemmas -/

theorem processPair_eq (rates_dict : List (String × ℚ)) (t : ℚ) (p : String)
    (rb rq : ℚ)
    (hb : dictGet rates_dict (splitSlash p).1 = some rb)
    (hq : dictGet rates_dict (splitSlash p).2 = some rq) :
    processPair rates_dict t p =
      if |rb - rq| ≥ t then some (longRecord p rb rq, shortRecord p rb rq)
      else none := by
  unfold processPair
  rw [hb, hq]

theorem processPair_cp {rates_dict : List (String × ℚ)} {t : ℚ} {p : String}
    {lr sr : PairRecord} (h : processPair rates_dict t p = some (lr, sr)) :
    lr.currencyPair = p ∧ sr.currencyPair = p := by
  cases h1 : dictGet rates_dict (splitSlash p).1 with
  | none =>
    unfold processPair at h
    rw [h1] at h
    simp at h
  | some rb =>
    cases h2 : dictGet rates_dict (splitSlash p).2 with
    | none =>
      unfold processPair at h
      rw [h1, h2] at h
      simp at h
    | some rq =>
      rw [processPair_eq rates_dict t p rb rq h1 h2] at h
      by_cases hge : |rb - rq| ≥ t
      · rw [if_pos hge] at h
        simp only [Option.some.injEq, Prod.mk.injEq] at h
        obtain ⟨hl, hs⟩ := h
        subst hl
        subst hs
        exact ⟨rfl, rfl⟩
      · rw [if_neg hge] at h
        simp at h

theorem mem_results_long {rates_dict : List (String × ℚ)} {t : ℚ} {p : String}
    {lr sr : PairRecord} (hp : p ∈ VALID_PAIRS)
    (h : processPair rates_dict t p = some (lr, sr)) :
    lr ∈ results_long rates_dict t := by
  unfold results_long
  rw [List.mem_filterMap]
  exact ⟨p, hp, by rw [h]; rfl⟩

theorem mem_results_short {rates_dict : List (String × ℚ)} {t : ℚ} {p : String}
    {lr sr : PairRecord} (hp : p ∈ VALID_PAIRS)
    (h : processPair rates_dict t p = some (lr, sr)) :
    sr ∈ results_short rates_dict t := by
  unfold results_short
  rw [List.mem_filterMap]
  exact ⟨p, hp, by rw [h]; rfl⟩

/-! ### Claim theorems -/

/-- Claim C3 (amended): every line either contributes one entry or is
silently skipped, except that a line whose matched label is a known bank
and whose matched `[\d.]+` token is not a valid decimal raises a fatal
`float` conversion error: `parseLine` signals the error exactly in that
situation. -/
theorem claim_C3 (line : List Char) :
    parseLine line = LineResult.err ↔
      ∃ bank tok, scan [] line = some (bank, tok) ∧
        (bank_to_currency (String.mk (stripChars bank))).isSome = true ∧
        floatOfTok tok = none := by
  constructor
  · intro h
    unfold parseLine at h
    cases hs : scan [] line with
    | none =>
      rw [hs] at h
      exact absurd h (by simp)
    | some bt =>
      obtain ⟨bank, tok⟩ := bt
      rw [hs] at h
      refine ⟨bank, tok, rfl, ?_, ?_⟩
      · cases hbc : bank_to_currency (String.mk (stripChars bank)) with
        | none => exact absurd h (by simp [hbc])
        | some currency => rfl
      · cases hbc : bank_to_currency (String.mk (stripChars bank)) with
        | none => exact absurd h (by simp [hbc])
        | some currency =>
          cases hf : floatOfTok tok with
          | none => rfl
          | some r => exact absurd h (by simp [hbc, hf])
  · rintro ⟨b, t, hbt, hsome2, hfl⟩
    obtain ⟨currency, hcur⟩ := Option.isSome_iff_exists.mp hsome2
    unfold parseLine
    rw [hbt]
    simp only [hcur, hfl]

/-- Claim C3, counterexample to the original statement: on the line
`"Federal Reserve ."` the matched token is `"."`, the bank is known, and
the `float` conversion fails, so the per-line parse pass does not
complete — the whole run aborts. -/
theorem claim_C3_cex :
    parseLine "Federal Reserve .".data = LineResult.err ∧
    parseAll (splitlines "Federal Reserve .") = Except.error () := by
  exact ⟨by rfl, by rfl⟩

/-- Claim C3, witness: a concrete line on which the amended
characterization of the fatal path fires. -/
theorem claim_C3_witness :
    parseLine "Federal Reserve 1.2.3".data = LineResult.err :=
  (claim_C3 "Federal Reserve 1.2.3".data).mpr
    ⟨"Federal Reserve".data, "1.2.3".data, by rfl, by rfl, by rfl⟩

/-- Claim C4: the qualitative classifier buckets by absolute magnitude
with strict comparisons — `|d| > 2` is the large tier, `0.5 < |d| ≤ 2`
the moderate tier, `|d| ≤ 0.5` the small tier — and within the large and
moderate tiers the sign of the differential selects the bundle. -/
theorem claim_C4 (d : ℚ) (pair : String) :
    (2 < |d| →
      analyze_carry_implications d pair =
        (if 0 < d then largeDiffPositive else largeDiffNegative)) ∧
    (1 / 2 < |d| ∧ |d| ≤ 2 →
      analyze_carry_implications d pair =
        (if 0 < d then moderateDiffPositive else moderateDiffNegative)) ∧
    (|d| ≤ 1 / 2 → analyze_carry_implications d pair = smallDiff) := by
  unfold analyze_carry_implications
  refine ⟨?_, ?_, ?_⟩
  · intro h
    rw [if_pos h]
  · rintro ⟨h1, h2⟩
    rw [if_neg (not_lt.mpr h2), if_pos h1]
  · intro h
    rw [if_neg (by linarith : ¬ 2 < |d|), if_neg (not_lt.mpr h)]

/-- Claim C4, witness: a differential of exactly 2.0 falls in the
moderate tier (positive sign bundle), not the large one. -/
theorem claim_C4_witness :
    ((1 : ℚ) / 2 < |(2 : ℚ)| ∧ |(2 : ℚ)| ≤ 2) ∧
    analyze_carry_implications 2 "EUR/USD" = moderateDiffPositive := by
  have h := (claim_C4 2 "EUR/USD").2.1 ⟨by norm_num, by norm_num⟩
  rw [if_pos (by norm_num : (0 : ℚ) < 2)] at h
  exact ⟨⟨by norm_num, by norm_num⟩, h⟩

/-- Claim C5: a line `label ++ whitespace ++ rate ++ optional "%"`,
where the label holds no `[\d.]` characters and no newline and is not
blank, parses to `(catalog[label.strip()], float(rate))` when the
stripped label is an exact catalog key, and to nothing otherwise. -/
theorem claim_C5 (label W N P : List Char) (r : ℚ)
    (hlab_num : ∀ c ∈ label, isNumChar c = false)
    (hlab_nl : ∀ c ∈ label, c ≠ '\n')
    (hlab_ne : stripChars label ≠ [])
    (hW : W ≠ []) (hWs : ∀ c ∈ W, isPySpace c = true)
    (hN : N ≠ []) (hNn : ∀ c ∈ N, isNumChar c = true)
    (hP : P = [] ∨ P = ['%'])
    (hr : floatOfTok N = some r) :
    parseLine (label ++ W ++ N ++ P) =
      match bank_to_currency (String.mk (stripChars label)) with
      | some currency => LineResult.entry currency r
      | none => LineResult.skip := by
  obtain ⟨g, gs, hgs⟩ : ∃ g gs, label.reverse.dropWhile isPySpace = g :: gs := by
    cases hcase : label.reverse.dropWhile isPySpace with
    | nil =>
      exfalso
      rw [List.dropWhile_eq_nil_iff] at hcase
      apply hlab_ne
      unfold stripChars
      have hall : ∀ x ∈ label, isPySpace x = true := fun x hx =>
        hcase x (List.mem_reverse.mpr hx)
      rw [List.dropWhile_eq_nil_iff.mpr hall]
      simp
    | cons g gs => exact ⟨g, gs, rfl⟩
  set L' : List Char := (g :: gs).reverse with hL'
  set T : List Char := (label.reverse.takeWhile isPySpace).reverse with hT
  have hdecomp : label = L' ++ T := by
    rw [hL', hT, ← hgs, ← List.reverse_append, List.takeWhile_append_dropWhile,
      List.reverse_reverse]
  have hT_ws : ∀ c ∈ T, isPySpace c = true := by
    intro c hc
    rw [hT, List.mem_reverse] at hc
    exact List.mem_takeWhile_imp hc
  have hL'_sub : ∀ c ∈ L', c ∈ label := by
    intro c hc
    rw [hL', List.mem_reverse, ← hgs] at hc
    exact List.mem_reverse.mp ((List.dropWhile_sublist isPySpace).subset hc)
  have hL'_ne : L' ≠ [] := by
    rw [hL']
    simp
  have hg_last : L'.getLast? = some g := by
    rw [hL', List.getLast?_reverse, List.head?_cons]
  have hg_ws : isPySpace g = false :=
    (head?_dropWhile_prop (show (label.reverse.dropWhile isPySpace).head? = some g by
      rw [hgs]; rfl)).2
  have hL'_last : ∀ c, L'.getLast? = some c → isPySpace c = false := by
    intro c hc
    rw [hg_last, Option.some.injEq] at hc
    subst hc
    exact hg_ws
  have hL'_num : ∀ c ∈ L', isNumChar c = false := fun c hc => hlab_num c (hL'_sub c hc)
  have hL'_nl : ∀ c ∈ L', c ≠ '\n' := fun c hc => hlab_nl c (hL'_sub c hc)
  have hTW_ws : ∀ c ∈ T ++ W, isPySpace c = true := by
    intro c hc
    rcases List.mem_append.mp hc with h | h
    · exact hT_ws c h
    · exact hWs c h
  have hTW_ne : (T ++ W) ≠ [] := by
    intro hcon
    exact hW (List.append_eq_nil.mp hcon).2
  have hPhead : ∀ d, P.head? = some d → isNumChar d = false := by
    intro d hd
    rcases hP with rfl | rfl
    · simp at hd
    · rw [List.head?_cons, Option.some.injEq] at hd
      subst hd
      decide
  have hscan : scan [] (label ++ W ++ N ++ P) = some (L', N) := by
    have h1 : label ++ W ++ N ++ P = L' ++ ((T ++ W) ++ (N ++ P)) := by
      rw [hdecomp]
      simp [List.append_assoc]
    rw [h1, scan_skip_label L' hL'_num hL'_nl hL'_last [] ((T ++ W) ++ (N ++ P)),
      List.append_nil,
      scan_fire L'.reverse (T ++ W) N P (by simpa using hL'_ne) hTW_ne hTW_ws hN hNn hPhead,
      List.reverse_reverse]
  have hdw_ne : L'.dropWhile isPySpace ≠ [] := by
    rw [Ne, List.dropWhile_eq_nil_iff]
    intro hall
    have h2 := hall g (by rw [hL']; exact List.mem_reverse.mpr (List.mem_cons_self _ _))
    rw [hg_ws] at h2
    simp at h2
  have hstrip : stripChars L' = stripChars label := by
    rw [hdecomp]
    unfold stripChars
    rw [dropWhile_append_not_nil T hdw_ne, List.reverse_append,
      dropWhile_append_all _ (fun c hc => hT_ws c (List.mem_reverse.mp hc))]
  cases hbc : bank_to_currency (String.mk (stripChars label)) with
  | none => simp only [parseLine, hscan, hstrip, hbc]
  | some currency => simp only [parseLine, hscan, hstrip, hbc, hr]

/-- Claim C5, witness: the line `"Federal Reserve 5.50%"` parses to the
entry `("USD", 5.5)`. -/
theorem claim_C5_witness :
    floatOfTok "5.50".data = some (11 / 2) ∧
    parseLine ("Federal Reserve".data ++ [' '] ++ "5.50".data ++ ['%']) =
      LineResult.entry "USD" (11 / 2) := by
  have hf : floatOfTok "5.50".data = some (11 / 2) := by
    unfold floatOfTok
    rw [if_pos (by decide)]
    show some (((5 : ℕ) : ℚ) + ((50 : ℕ) : ℚ) / (10 : ℚ) ^ 2) = some (11 / 2)
    norm_num
  refine ⟨hf, ?_⟩
  have h := claim_C5 "Federal Reserve".data [' '] "5.50".data ['%'] (11 / 2)
    (by decide) (by decide) (by decide) (by decide) (by decide) (by decide)
    (by decide) (Or.inr rfl) hf
  exact h.trans (by rfl)

/-- Claim C6 (amended): the analysis has three mutually exclusive
user-visible failure outcomes — EmptyInput exactly when the raw text is
blank, NoValidData exactly when the text is non-blank and the parse pass
completed with zero entries, and a fatal number-conversion error exactly
when the text is non-blank and some line aborted the pass; no record is
produced in any of them. -/
theorem claim_C6 (raw_input : String) (t : ℚ) :
    (analyze raw_input t = AnalysisResult.emptyInput ↔
      stripChars raw_input.data = []) ∧
    (analyze raw_input t = AnalysisResult.noValidData ↔
      stripChars raw_input.data ≠ [] ∧
      parseAll (splitlines raw_input) = Except.ok []) ∧
    (analyze raw_input t = AnalysisResult.parseError ↔
      stripChars raw_input.data ≠ [] ∧
      parseAll (splitlines raw_input) = Except.error ()) := by
  unfold analyze
  by_cases hempty : (stripChars raw_input.data).isEmpty = true
  · have he : stripChars raw_input.data = [] := by simpa using hempty
    rw [if_pos hempty]
    refine ⟨?_, ?_, ?_⟩ <;> simp [he]
  · have hne : stripChars raw_input.data ≠ [] := by simpa using hempty
    rw [if_neg hempty]
    cases hp : parseAll (splitlines raw_input) with
    | error u =>
      cases u
      refine ⟨?_, ?_, ?_⟩ <;> simp [hne]
    | ok rate_data =>
      cases rate_data with
      | nil => refine ⟨?_, ?_, ?_⟩ <;> simp [hne]
      | cons a as => refine ⟨?_, ?_, ?_⟩ <;> simp [hne]

/-- Claim C6, counterexample to the original statement: the non-blank
input `"Federal Reserve ."` produces a third failure outcome — the
unhandled number-conversion error — distinct from both EmptyInput and
NoValidData. -/
theorem claim_C6_cex :
    analyze "Federal Reserve ." 1 = AnalysisResult.parseError ∧
    AnalysisResult.parseError ≠ AnalysisResult.emptyInput ∧
    AnalysisResult.parseError ≠ AnalysisResult.noValidData := by
  exact ⟨by rfl, by decide, by decide⟩

/-- Claim C6, witness: the blank input reaches exactly the EmptyInput
outcome. -/
theorem claim_C6_witness :
    analyze "" 1 = AnalysisResult.emptyInput ↔ stripChars "".data = [] :=
  (claim_C6 "" 1).1

/-- Claim C9: parsing and classification are deterministic — equal raw
texts give equal parse results, and the classifier is a pure function of
the rate mapping and the threshold. -/
theorem claim_C9 (raw raw' : String) (rates_dict rates_dict' : List (String × ℚ))
    (t t' : ℚ) (h1 : raw = raw') (h2 : rates_dict = rates_dict') (h3 : t = t') :
    parseAll (splitlines raw) = parseAll (splitlines raw') ∧
    analyze raw t = analyze raw' t' ∧
    results_long rates_dict t = results_long rates_dict' t' ∧
    results_short rates_dict t = results_short rates_dict' t' := by
  subst h1
  subst h2
  subst h3
  exact ⟨rfl, rfl, rfl, rfl⟩

/-- Claim C9, witness: determinism at a concrete input. -/
theorem claim_C9_witness :
    parseAll (splitlines "Federal Reserve 5.50%") =
      parseAll (splitlines "Federal Reserve 5.50%") ∧
    analyze "Federal Reserve 5.50%" 1 = analyze "Federal Reserve 5.50%" 1 ∧
    results_long [("USD", (11 : ℚ) / 2)] 1 = results_long [("USD", (11 : ℚ) / 2)] 1 ∧
    results_short [("USD", (11 : ℚ) / 2)] 1 = results_short [("USD", (11 : ℚ) / 2)] 1 :=
  claim_C9 _ _ _ _ _ _ rfl rfl rfl

/-- Characterization of one step of the watchlist loop once both legs
are known. -/
theorem watchEntry_eq (rates_dict : List (String × ℚ)) (p : String) (rb rq : ℚ)
    (hb : dictGet rates_dict (splitSlash p).1 = some rb)
    (hq : dictGet rates_dict (splitSlash p).2 = some rq) :
    watchEntry rates_dict p =
      if rb - rq > 2 then
        some (WatchCat.primary,
          { pair := p, diff := rb - rq, direction := "LONG"
            rationale := "High yield, strong trend potential"
            entry_strategy := "Buy pullbacks to daily support during risk-on" })
      else if rb - rq > 1 / 2 then
        some (WatchCat.secondary,
          { pair := p, diff := rb - rq, direction := "LONG"
            rationale := "Moderate yield, good risk-reward"
            entry_strategy := "Buy technical breakouts with risk-on confirmation" })
      else if rb - rq < -1 then
        some (WatchCat.riskOff,
          { pair := p, diff := rb - rq
            direction := if rb - rq > 0 then "SHORT" else "LONG"
            rationale := "Safe haven, buy during stress"
            entry_strategy := "Buy during VIX spikes and risk-off events" })
      else
        some (WatchCat.neutral,
          { pair := p, diff := rb - rq, direction := "NEUTRAL"
            rationale := "Carry neutral, trade technically"
            entry_strategy := "Pure technical analysis, range trading" }) := by
  unfold watchEntry
  rw [hb, hq]

/-- Claim C1: for a catalog pair whose legs both carry a rate and whose
differential clears the floor, the long record's differential is the
rounded `rb - rq`, the short record's is its negation, and exactly one
of the two records earns carry when `rb ≠ rq`; when `rb = rq` both
differentials are 0 and a strictly positive floor excludes both. -/
theorem claim_C1 (rates_dict : List (String × ℚ)) (min_differential : ℚ)
    (pair : String) (rb rq : ℚ)
    (hpair : pair ∈ VALID_PAIRS)
    (hb : dictGet rates_dict (splitSlash pair).1 = some rb)
    (hq : dictGet rates_dict (splitSlash pair).2 = some rq) :
    (min_differential ≤ |rb - rq| →
      ∃ lr sr, processPair rates_dict min_differential pair = some (lr, sr) ∧
        lr ∈ results_long rates_dict min_differential ∧
        sr ∈ results_short rates_dict min_differential ∧
        lr.rateDiff = round3 (rb - rq) ∧
        sr.rateDiff = -lr.rateDiff ∧
        (rb ≠ rq →
          (lr.carry = "Earn" ∧ sr.carry = "Pay") ∨
          (lr.carry = "Pay" ∧ sr.carry = "Earn")) ∧
        (rb = rq → lr.rateDiff = 0 ∧ sr.rateDiff = 0)) ∧
    (rb = rq → 0 < min_differential →
      processPair rates_dict min_differential pair = none ∧
      (∀ lr ∈ results_long rates_dict min_differential, lr.currencyPair ≠ pair) ∧
      (∀ sr ∈ results_short rates_dict min_differential, sr.currencyPair ≠ pair)) := by
  have hpe := processPair_eq rates_dict min_differential pair rb rq hb hq
  constructor
  · intro hle
    rw [if_pos hle] at hpe
    refine ⟨longRecord pair rb rq, shortRecord pair rb rq, hpe,
      mem_results_long hpair hpe, mem_results_short hpair hpe, rfl, ?_, ?_, ?_⟩
    · show round3 (-(rb - rq)) = -round3 (rb - rq)
      exact round3_neg _
    · intro hne
      rcases (sub_ne_zero.mpr hne).lt_or_lt with hlt | hgt
      · right
        constructor
        · show (if rb - rq > 0 then "Earn" else "Pay") = "Pay"
          rw [if_neg (by linarith : ¬ rb - rq > 0)]
        · show (if rb - rq < 0 then "Earn" else "Pay") = "Earn"
          rw [if_pos hlt]
      · left
        constructor
        · show (if rb - rq > 0 then "Earn" else "Pay") = "Earn"
          rw [if_pos hgt]
        · show (if rb - rq < 0 then "Earn" else "Pay") = "Pay"
          rw [if_neg (by linarith : ¬ rb - rq < 0)]
    · intro heq
      subst heq
      constructor
      · show round3 (rb - rb) = 0
        rw [sub_self, round3_zero]
      · show round3 (-(rb - rb)) = 0
        rw [sub_self, neg_zero, round3_zero]
  · intro heq hpos
    subst heq
    rw [if_neg (by rw [sub_self, abs_zero]; exact not_le.mpr hpos)] at hpe
    refine ⟨hpe, ?_, ?_⟩
    · intro lr hmem hcp
      unfold results_long at hmem
      rw [List.mem_filterMap] at hmem
      obtain ⟨p', hp', hsome⟩ := hmem
      cases hpp : processPair rates_dict min_differential p' with
      | none =>
        rw [hpp] at hsome
        simp at hsome
      | some prs =>
        obtain ⟨lr', sr'⟩ := prs
        rw [hpp] at hsome
        have hlr : lr' = lr := by simpa using hsome
        subst hlr
        have hcp2 := (processPair_cp hpp).1
        rw [hcp] at hcp2
        rw [← hcp2] at hpp
        rw [hpe] at hpp
        exact Option.noConfusion hpp
    · intro sr hmem hcp
      unfold results_short at hmem
      rw [List.mem_filterMap] at hmem
      obtain ⟨p', hp', hsome⟩ := hmem
      cases hpp : processPair rates_dict min_differential p' with
      | none =>
        rw [hpp] at hsome
        simp at hsome
      | some prs =>
        obtain ⟨lr', sr'⟩ := prs
        rw [hpp] at hsome
        have hsr : sr' = sr := by simpa using hsome
        subst hsr
        have hcp2 := (processPair_cp hpp).2
        rw [hcp] at hcp2
        rw [← hcp2] at hpp
        rw [hpe] at hpp
        exact Option.noConfusion hpp

/-- Claim C1, witness: the `USD/JPY` pair at rates 5.5 and 0.1 with
floor 0.1 is emitted, with antisymmetric rounded differentials. -/
theorem claim_C1_witness :
    ((1 : ℚ) / 10 ≤ |11 / 2 - 1 / 10|) ∧
    ∃ lr sr,
      processPair [("USD", (11 : ℚ) / 2), ("JPY", 1 / 10)] (1 / 10) "USD/JPY" =
        some (lr, sr) ∧
      lr.rateDiff = round3 (11 / 2 - 1 / 10) ∧ sr.rateDiff = -lr.rateDiff := by
  have habs : |(11 : ℚ) / 2 - 1 / 10| = 27 / 5 := by
    rw [show (11 : ℚ) / 2 - 1 / 10 = 27 / 5 from by norm_num]
    exact abs_of_pos (by norm_num)
  have hle : (1 : ℚ) / 10 ≤ |11 / 2 - 1 / 10| := by
    rw [habs]
    norm_num
  refine ⟨hle, ?_⟩
  obtain ⟨lr, sr, h1, _, _, h4, h5, _, _⟩ :=
    (claim_C1 [("USD", (11 : ℚ) / 2), ("JPY", 1 / 10)] (1 / 10) "USD/JPY"
      (11 / 2) (1 / 10) (by decide) rfl rfl).1 hle
  exact ⟨lr, sr, h1, h4, h5⟩

/-- Claim C2: a pair with both legs in the mapping is emitted in both
directions exactly when the absolute differential reaches the threshold
(inclusive floor). -/
theorem claim_C2 (rates_dict : List (String × ℚ)) (min_differential : ℚ)
    (pair : String) (rb rq : ℚ)
    (hpair : pair ∈ VALID_PAIRS)
    (hb : dictGet rates_dict (splitSlash pair).1 = some rb)
    (hq : dictGet rates_dict (splitSlash pair).2 = some rq) :
    ((∃ lr ∈ results_long rates_dict min_differential, lr.currencyPair = pair) ↔
      min_differential ≤ |rb - rq|) ∧
    ((∃ sr ∈ results_short rates_dict min_differential, sr.currencyPair = pair) ↔
      min_differential ≤ |rb - rq|) := by
  have hpe := processPair_eq rates_dict min_differential pair rb rq hb hq
  constructor
  · constructor
    · rintro ⟨lr, hmem, hcp⟩
      unfold results_long at hmem
      rw [List.mem_filterMap] at hmem
      obtain ⟨p', hp', hsome⟩ := hmem
      cases hpp : processPair rates_dict min_differential p' with
      | none =>
        rw [hpp] at hsome
        simp at hsome
      | some prs =>
        obtain ⟨lr', sr'⟩ := prs
        rw [hpp] at hsome
        have hlr : lr' = lr := by simpa using hsome
        subst hlr
        have hcp2 := (processPair_cp hpp).1
        have hp'eq : p' = pair := hcp2.symm.trans hcp
        rw [hp'eq] at hpp
        by_contra hnot
        rw [if_neg hnot] at hpe
        rw [hpe] at hpp
        exact Option.noConfusion hpp
    · intro hge
      rw [if_pos hge] at hpe
      exact ⟨longRecord pair rb rq, mem_results_long hpair hpe, rfl⟩
  · constructor
    · rintro ⟨sr, hmem, hcp⟩
      unfold results_short at hmem
      rw [List.mem_filterMap] at hmem
      obtain ⟨p', hp', hsome⟩ := hmem
      cases hpp : processPair rates_dict min_differential p' with
      | none =>
        rw [hpp] at hsome
        simp at hsome
      | some prs =>
        obtain ⟨lr', sr'⟩ := prs
        rw [hpp] at hsome
        have hsr : sr' = sr := by simpa using hsome
        subst hsr
        have hcp2 := (processPair_cp hpp).2
        have hp'eq : p' = pair := hcp2.symm.trans hcp
        rw [hp'eq] at hpp
        by_contra hnot
        rw [if_neg hnot] at hpe
        rw [hpe] at hpp
        exact Option.noConfusion hpp
    · intro hge
      rw [if_pos hge] at hpe
      exact ⟨shortRecord pair rb rq, mem_results_short hpair hpe, rfl⟩

/-- Claim C2, witness: a pair whose absolute differential is exactly the
threshold 2.0 is included (inclusive floor). -/
theorem claim_C2_witness :
    ((2 : ℚ) ≤ |1 - 3|) ∧
    ∃ lr ∈ results_long [("USD", (3 : ℚ)), ("EUR", 1)] 2,
      lr.currencyPair = "EUR/USD" := by
  have hle : (2 : ℚ) ≤ |1 - 3| := by
    rw [show (1 : ℚ) - 3 = -2 from by norm_num, abs_neg]
    rw [abs_of_pos (by norm_num : (0 : ℚ) < 2)]
  exact ⟨hle,
    (claim_C2 [("USD", (3 : ℚ)), ("EUR", 1)] 2 "EUR/USD" 1 3 (by decide) rfl rfl).1.mpr hle⟩

/-- Claim C7: on the two-line Fed/BoJ input with threshold 0.1 the
analysis emits records for exactly the pair USD/JPY, with long
differential 5.40 and carry Earn (large positive tier, trend bias
"Strongly Bullish in Risk-On"), and short differential -5.40 with
carry Pay. -/
theorem claim_C7 :
    analyze "Federal Reserve 5.50%\nBank of Japan 0.10%" (1 / 10) =
      AnalysisResult.ok [longRecord "USD/JPY" (11 / 2) (1 / 10)]
        [shortRecord "USD/JPY" (11 / 2) (1 / 10)] ∧
    (longRecord "USD/JPY" (11 / 2) (1 / 10)).rateDiff = 27 / 5 ∧
    (longRecord "USD/JPY" (11 / 2) (1 / 10)).carry = "Earn" ∧
    (longRecord "USD/JPY" (11 / 2) (1 / 10)).trendBias =
      "Strongly Bullish in Risk-On" ∧
    (shortRecord "USD/JPY" (11 / 2) (1 / 10)).rateDiff = -(27 / 5) ∧
    (shortRecord "USD/JPY" (11 / 2) (1 / 10)).carry = "Pay" := by
  have hdiff : (11 : ℚ) / 2 - 1 / 10 = 27 / 5 := by norm_num
  have habs : |(11 : ℚ) / 2 - 1 / 10| = 27 / 5 := by
    rw [hdiff]
    exact abs_of_pos (by norm_num)
  have hr3 : round3 ((11 : ℚ) / 2 - 1 / 10) = 27 / 5 := by
    unfold round3
    rw [show (1000 : ℚ) * (11 / 2 - 1 / 10) = ((5400 : ℤ) : ℚ) from by norm_num,
      rhe_intCast]
    norm_num
  have hf1 : floatOfTok "5.50".data = some (11 / 2) := by
    unfold floatOfTok
    rw [if_pos (by decide)]
    show some (((5 : ℕ) : ℚ) + ((50 : ℕ) : ℚ) / (10 : ℚ) ^ 2) = some (11 / 2)
    norm_num
  have hf2 : floatOfTok "0.10".data = some (1 / 10) := by
    unfold floatOfTok
    rw [if_pos (by decide)]
    show some (((0 : ℕ) : ℚ) + ((10 : ℕ) : ℚ) / (10 : ℚ) ^ 2) = some (1 / 10)
    norm_num
  have hl1 : parseLine "Federal Reserve 5.50%".data = LineResult.entry "USD" (11 / 2) := by
    have hsc : scan [] "Federal Reserve 5.50%".data =
        some ("Federal Reserve".data, "5.50".data) := by rfl
    have hbc : bank_to_currency (String.mk (stripChars "Federal Reserve".data)) =
        some "USD" := by rfl
    simp only [parseLine, hsc, hbc, hf1]
  have hl2 : parseLine "Bank of Japan 0.10%".data = LineResult.entry "JPY" (1 / 10) := by
    have hsc : scan [] "Bank of Japan 0.10%".data =
        some ("Bank of Japan".data, "0.10".data) := by rfl
    have hbc : bank_to_currency (String.mk (stripChars "Bank of Japan".data)) =
        some "JPY" := by rfl
    simp only [parseLine, hsc, hbc, hf2]
  have hparse : parseAll (splitlines "Federal Reserve 5.50%\nBank of Japan 0.10%") =
      Except.ok [("USD", 11 / 2), ("JPY", 1 / 10)] := by
    rw [show splitlines "Federal Reserve 5.50%\nBank of Japan 0.10%" =
      ["Federal Reserve 5.50%".data, "Bank of Japan 0.10%".data] from rfl]
    simp only [parseAll, hl1, hl2, Except.map]
  have hpp : processPair [("USD", (11 : ℚ) / 2), ("JPY", 1 / 10)] (1 / 10) "USD/JPY" =
      some (longRecord "USD/JPY" (11 / 2) (1 / 10),
        shortRecord "USD/JPY" (11 / 2) (1 / 10)) := by
    rw [processPair_eq [("USD", (11 : ℚ) / 2), ("JPY", 1 / 10)] (1 / 10) "USD/JPY"
      (11 / 2) (1 / 10) rfl rfl,
      if_pos (by rw [ge_iff_le, habs]; norm_num)]
  have hres_long : results_long [("USD", (11 : ℚ) / 2), ("JPY", 1 / 10)] (1 / 10) =
      [longRecord "USD/JPY" (11 / 2) (1 / 10)] := by
    unfold results_long VALID_PAIRS
    simp only [List.filterMap_cons, List.filterMap_nil, hpp,
      Option.map_some', Option.map_none',
      (show processPair [("USD", (11 : ℚ) / 2), ("JPY", 1 / 10)] (1 / 10) "EUR/USD" = none from rfl),
      (show processPair [("USD", (11 : ℚ) / 2), ("JPY", 1 / 10)] (1 / 10) "GBP/USD" = none from rfl),
      (show processPair [("USD", (11 : ℚ) / 2), ("JPY", 1 / 10)] (1 / 10) "USD/CHF" = none from rfl),
      (show processPair [("USD", (11 : ℚ) / 2), ("JPY", 1 / 10)] (1 / 10) "AUD/USD" = none from rfl),
      (show processPair [("USD", (11 : ℚ) / 2), ("JPY", 1 / 10)] (1 / 10) "USD/CAD" = none from rfl),
      (show processPair [("USD", (11 : ℚ) / 2), ("JPY", 1 / 10)] (1 / 10) "NZD/USD" = none from rfl),
      (show processPair [("USD", (11 : ℚ) / 2), ("JPY", 1 / 10)] (1 / 10) "EUR/GBP" = none from rfl),
      (show processPair [("USD", (11 : ℚ) / 2), ("JPY", 1 / 10)] (1 / 10) "EUR/JPY" = none from rfl),
      (show processPair [("USD", (11 : ℚ) / 2), ("JPY", 1 / 10)] (1 / 10) "EUR/CHF" = none from rfl),
      (show processPair [("USD", (11 : ℚ) / 2), ("JPY", 1 / 10)] (1 / 10) "EUR/AUD" = none from rfl),
      (show processPair [("USD", (11 : ℚ) / 2), ("JPY", 1 / 10)] (1 / 10) "EUR/CAD" = none from rfl),
      (show processPair [("USD", (11 : ℚ) / 2), ("JPY", 1 / 10)] (1 / 10) "EUR/NZD" = none from rfl),
      (show processPair [("USD", (11 : ℚ) / 2), ("JPY", 1 / 10)] (1 / 10) "GBP/JPY" = none from rfl),
      (show processPair [("USD", (11 : ℚ) / 2), ("JPY", 1 / 10)] (1 / 10) "GBP/CHF" = none from rfl),
      (show processPair [("USD", (11 : ℚ) / 2), ("JPY", 1 / 10)] (1 / 10) "GBP/AUD" = none from rfl),
      (show processPair [("USD", (11 : ℚ) / 2), ("JPY", 1 / 10)] (1 / 10) "GBP/CAD" = none from rfl),
      (show processPair [("USD", (11 : ℚ) / 2), ("JPY", 1 / 10)] (1 / 10) "GBP/NZD" = none from rfl),
      (show processPair [("USD", (11 : ℚ) / 2), ("JPY", 1 / 10)] (1 / 10) "AUD/JPY" = none from rfl),
      (show processPair [("USD", (11 : ℚ) / 2), ("JPY", 1 / 10)] (1 / 10) "CAD/JPY" = none from rfl),
      (show processPair [("USD", (11 : ℚ) / 2), ("JPY", 1 / 10)] (1 / 10) "CHF/JPY" = none from rfl),
      (show processPair [("USD", (11 : ℚ) / 2), ("JPY", 1 / 10)] (1 / 10) "NZD/JPY" = none from rfl),
      (show processPair [("USD", (11 : ℚ) / 2), ("JPY", 1 / 10)] (1 / 10) "AUD/CAD" = none from rfl),
      (show processPair [("USD", (11 : ℚ) / 2), ("JPY", 1 / 10)] (1 / 10) "AUD/CHF" = none from rfl),
      (show processPair [("USD", (11 : ℚ) / 2), ("JPY", 1 / 10)] (1 / 10) "AUD/NZD" = none from rfl),
      (show processPair [("USD", (11 : ℚ) / 2), ("JPY", 1 / 10)] (1 / 10) "CAD/CHF" = none from rfl),
      (show processPair [("USD", (11 : ℚ) / 2), ("JPY", 1 / 10)] (1 / 10) "NZD/CAD" = none from rfl),
      (show processPair [("USD", (11 : ℚ) / 2), ("JPY", 1 / 10)] (1 / 10) "NZD/CHF" = none from rfl)]
  have hres_short : results_short [("USD", (11 : ℚ) / 2), ("JPY", 1 / 10)] (1 / 10) =
      [shortRecord "USD/JPY" (11 / 2) (1 / 10)] := by
    unfold results_short VALID_PAIRS
    simp only [List.filterMap_cons, List.filterMap_nil, hpp,
      Option.map_some', Option.map_none',
      (show processPair [("USD", (11 : ℚ) / 2), ("JPY", 1 / 10)] (1 / 10) "EUR/USD" = none from rfl),
      (show processPair [("USD", (11 : ℚ) / 2), ("JPY", 1 / 10)] (1 / 10) "GBP/USD" = none from rfl),
      (show processPair [("USD", (11 : ℚ) / 2), ("JPY", 1 / 10)] (1 / 10) "USD/CHF" = none from rfl),
      (show processPair [("USD", (11 : ℚ) / 2), ("JPY", 1 / 10)] (1 / 10) "AUD/USD" = none from rfl),
      (show processPair [("USD", (11 : ℚ) / 2), ("JPY", 1 / 10)] (1 / 10) "USD/CAD" = none from rfl),
      (show processPair [("USD", (11 : ℚ) / 2), ("JPY", 1 / 10)] (1 / 10) "NZD/USD" = none from rfl),
      (show processPair [("USD", (11 : ℚ) / 2), ("JPY", 1 / 10)] (1 / 10) "EUR/GBP" = none from rfl),
      (show processPair [("USD", (11 : ℚ) / 2), ("JPY", 1 / 10)] (1 / 10) "EUR/JPY" = none from rfl),
      (show processPair [("USD", (11 : ℚ) / 2), ("JPY", 1 / 10)] (1 / 10) "EUR/CHF" = none from rfl),
      (show processPair [("USD", (11 : ℚ) / 2), ("JPY", 1 / 10)] (1 / 10) "EUR/AUD" = none from rfl),
      (show processPair [("USD", (11 : ℚ) / 2), ("JPY", 1 / 10)] (1 / 10) "EUR/CAD" = none from rfl),
      (show processPair [("USD", (11 : ℚ) / 2), ("JPY", 1 / 10)] (1 / 10) "EUR/NZD" = none from rfl),
      (show processPair [("USD", (11 : ℚ) / 2), ("JPY", 1 / 10)] (1 / 10) "GBP/JPY" = none from rfl),
      (show processPair [("USD", (11 : ℚ) / 2), ("JPY", 1 / 10)] (1 / 10) "GBP/CHF" = none from rfl),
      (show processPair [("USD", (11 : ℚ) / 2), ("JPY", 1 / 10)] (1 / 10) "GBP/AUD" = none from rfl),
      (show processPair [("USD", (11 : ℚ) / 2), ("JPY", 1 / 10)] (1 / 10) "GBP/CAD" = none from rfl),
      (show processPair [("USD", (11 : ℚ) / 2), ("JPY", 1 / 10)] (1 / 10) "GBP/NZD" = none from rfl),
      (show processPair [("USD", (11 : ℚ) / 2), ("JPY", 1 / 10)] (1 / 10) "AUD/JPY" = none from rfl),
      (show processPair [("USD", (11 : ℚ) / 2), ("JPY", 1 / 10)] (1 / 10) "CAD/JPY" = none from rfl),
      (show processPair [("USD", (11 : ℚ) / 2), ("JPY", 1 / 10)] (1 / 10) "CHF/JPY" = none from rfl),
      (show processPair [("USD", (11 : ℚ) / 2), ("JPY", 1 / 10)] (1 / 10) "NZD/JPY" = none from rfl),
      (show processPair [("USD", (11 : ℚ) / 2), ("JPY", 1 / 10)] (1 / 10) "AUD/CAD" = none from rfl),
      (show processPair [("USD", (11 : ℚ) / 2), ("JPY", 1 / 10)] (1 / 10) "AUD/CHF" = none from rfl),
      (show processPair [("USD", (11 : ℚ) / 2), ("JPY", 1 / 10)] (1 / 10) "AUD/NZD" = none from rfl),
      (show processPair [("USD", (11 : ℚ) / 2), ("JPY", 1 / 10)] (1 / 10) "CAD/CHF" = none from rfl),
      (show processPair [("USD", (11 : ℚ) / 2), ("JPY", 1 / 10)] (1 / 10) "NZD/CAD" = none from rfl),
      (show processPair [("USD", (11 : ℚ) / 2), ("JPY", 1 / 10)] (1 / 10) "NZD/CHF" = none from rfl)]
  refine ⟨?_, ?_, ?_, ?_, ?_, ?_⟩
  · unfold analyze
    rw [if_neg (by decide), hparse]
    show AnalysisResult.ok
        (results_long (dictOf [("USD", (11 : ℚ) / 2), ("JPY", 1 / 10)]) (1 / 10))
        (results_short (dictOf [("USD", (11 : ℚ) / 2), ("JPY", 1 / 10)]) (1 / 10)) = _
    rw [show dictOf [("USD", (11 : ℚ) / 2), ("JPY", 1 / 10)] =
        [("USD", (11 : ℚ) / 2), ("JPY", 1 / 10)] from rfl,
      hres_long, hres_short]
  · show round3 ((11 : ℚ) / 2 - 1 / 10) = 27 / 5
    exact hr3
  · show (if (11 : ℚ) / 2 - 1 / 10 > 0 then "Earn" else "Pay") = "Earn"
    rw [if_pos (by norm_num : (11 : ℚ) / 2 - 1 / 10 > 0)]
  · show (analyze_carry_implications ((11 : ℚ) / 2 - 1 / 10) "USD/JPY").trendBias =
      "Strongly Bullish in Risk-On"
    unfold analyze_carry_implications
    rw [if_pos (by rw [habs]; norm_num : |(11 : ℚ) / 2 - 1 / 10| > 2),
      if_pos (by norm_num : (11 : ℚ) / 2 - 1 / 10 > 0)]
    rfl
  · show round3 (-((11 : ℚ) / 2 - 1 / 10)) = -(27 / 5)
    rw [round3_neg, hr3]
  · show (if (11 : ℚ) / 2 - 1 / 10 < 0 then "Earn" else "Pay") = "Pay"
    rw [if_neg (by norm_num : ¬ (11 : ℚ) / 2 - 1 / 10 < 0)]

/-- Claim C8: `dict(rate_data)` holds a duplicated currency exactly once
and its value is the one from the last occurrence in the parse list. -/
theorem claim_C8 (rate_data : List (String × ℚ)) (c : String) :
    (dictOf rate_data).countP (fun kv => kv.1 == c) =
      (if rate_data.any (fun kv => kv.1 == c) then 1 else 0) ∧
    dictGet (dictOf rate_data) c =
      (rate_data.reverse.find? (fun kv => kv.1 == c)).map (·.2) := by
  induction rate_data using List.reverseRecOn with
  | nil => exact ⟨rfl, rfl⟩
  | append_singleton l kv ih =>
    obtain ⟨k, v⟩ := kv
    obtain ⟨ihc, ihg⟩ := ih
    have hle : (dictOf l).countP (fun kv => kv.1 == c) ≤ 1 := by
      rw [ihc]
      split <;> omega
    constructor
    · rw [dictOf_concat, dictUpd_countP _ _ _ _ hle, ihc, List.any_append]
      cases h : k == c
      · simp only [List.any_cons, List.any_nil, h, Bool.or_false, Bool.false_eq_true,
          if_false]
      · simp only [List.any_cons, List.any_nil, h, Bool.or_false, Bool.or_true,
          eq_self_iff_true, if_true]
    · rw [dictOf_concat, dictUpd_get, ihg, List.reverse_append]
      cases h : k == c
      · simp [h]
      · simp [h]

/-- Claim C8, witness: on a duplicated key the mapping returns the last
value. -/
theorem claim_C8_witness :
    dictGet (dictOf [("USD", (1 : ℚ)), ("USD", 2)]) "USD" =
      (([("USD", (1 : ℚ)), ("USD", 2)].reverse.find? (fun kv => kv.1 == "USD")).map
        (·.2)) :=
  (claim_C8 [("USD", (1 : ℚ)), ("USD", 2)] "USD").2

/-- Claim C10: every entry of the "Risk-Off Hedges" watchlist category
has direction "LONG" — the SHORT arm of its conditional is unreachable,
because the category requires a differential strictly below -1. -/
theorem claim_C10 (rates_dict : List (String × ℚ)) :
    ∀ e ∈ (create_strategic_watchlist rates_dict).riskOffHedges,
      e.direction = "LONG" := by
  intro e he
  unfold create_strategic_watchlist at he
  rw [mem_sortByAbsDesc, List.mem_filterMap] at he
  obtain ⟨ce, hce_mem, hce⟩ := he
  have hce' : ce.1 = WatchCat.riskOff ∧ ce.2 = e := by
    by_cases h : ce.1 = WatchCat.riskOff
    · rw [if_pos h] at hce
      exact ⟨h, by simpa using hce⟩
    · rw [if_neg h] at hce
      exact absurd hce (by simp)
  rw [List.mem_filterMap] at hce_mem
  obtain ⟨p, hp, hwe⟩ := hce_mem
  cases h1 : dictGet rates_dict (splitSlash p).1 with
  | none =>
    unfold watchEntry at hwe
    rw [h1] at hwe
    exact absurd hwe (by simp)
  | some rb =>
    cases h2 : dictGet rates_dict (splitSlash p).2 with
    | none =>
      unfold watchEntry at hwe
      rw [h1, h2] at hwe
      exact absurd hwe (by simp)
    | some rq =>
      rw [watchEntry_eq rates_dict p rb rq h1 h2] at hwe
      split_ifs at hwe with g1 g2 g3 g4
      · simp only [Option.some.injEq] at hwe
        subst hwe
        exact absurd hce'.1 (by simp)
      · simp only [Option.some.injEq] at hwe
        subst hwe
        exact absurd hce'.1 (by simp)
      · exact absurd g4 (by linarith)
      · simp only [Option.some.injEq] at hwe
        subst hwe
        rw [← hce'.2]
      · simp only [Option.some.injEq] at hwe
        subst hwe
        exact absurd hce'.1 (by simp)

/-- Claim C10, witness: with rates EUR 1 and USD 3 the pair EUR/USD is a
Risk-Off Hedge and its direction is LONG. -/
theorem claim_C10_witness :
    ({ pair := "EUR/USD", diff := -2, direction := "LONG",
       rationale := "Safe haven, buy during stress",
       entry_strategy := "Buy during VIX spikes and risk-off events" } :
      WatchEntry).direction = "LONG" := by
  apply claim_C10 [("EUR", (1 : ℚ)), ("USD", 3)]
  unfold create_strategic_watchlist
  rw [mem_sortByAbsDesc, List.mem_filterMap]
  refine ⟨(WatchCat.riskOff,
    { pair := "EUR/USD", diff := -2, direction := "LONG",
      rationale := "Safe haven, buy during stress",
      entry_strategy := "Buy during VIX spikes and risk-off events" }), ?_, rfl⟩
  rw [List.mem_filterMap]
  refine ⟨"EUR/USD", by decide, ?_⟩
  rw [watchEntry_eq [("EUR", (1 : ℚ)), ("USD", 3)] "EUR/USD" 1 3 rfl rfl,
    if_neg (by norm_num : ¬ (1 : ℚ) - 3 > 2),
    if_neg (by norm_num : ¬ (1 : ℚ) - 3 > 1 / 2),
    if_pos (by norm_num : (1 : ℚ) - 3 < -1),
    if_neg (by norm_num : ¬ (1 : ℚ) - 3 > 0),
    show (1 : ℚ) - 3 = -2 from by norm_num]
